import Mathlib

/-!
Verification of `exhibitor2dns` (`exhibitor2dns/main.py`), a one-shot batch job that
synchronizes DNS A-records in a Route53 zone with the membership of a
Zookeeper ensemble reported by Exhibitor.

The Python source is shallowly embedded: pure computations become Lean
functions, the Route53 client calls become explicit state passing over a
record store plus a trace of API calls, and exceptions become `Except` /
`Option` results.  Python's `sorted` on strings is modelled by insertion
sort under the lexicographic (code-point) order, and `"%02d"` formatting by
an executable decimal renderer.
-/

namespace Exhibitor2Dns

/-! ### Python string ordering

Python compares strings lexicographically by Unicode code point; `sorted`
is a stable ascending sort.  We embed the comparison as an executable
boolean on the character lists underlying `String`. -/

/-- Lexicographic comparison of character lists by Unicode code point. -/
def charListLe : List Char → List Char → Bool
  | [], _ => true
  | _ :: _, [] => false
  | a :: as, b :: bs =>
    if a.toNat < b.toNat then true
    else if b.toNat < a.toNat then false
    else charListLe as bs

/-- Python string `<=`: lexicographic on code points. -/
def strLe (a b : String) : Bool := charListLe a.data b.data

/-- `strLe` as a decidable relation, for use with `List.insertionSort`. -/
def strLeP (a b : String) : Prop := strLe a b = true

instance : DecidableRel strLeP := fun _ _ => inferInstanceAs (Decidable (_ = true))

/-- Python `sorted` on a list of strings. -/
def pySorted (l : List String) : List String := l.insertionSort strLeP

theorem char_toNat_inj {a b : Char} (h : a.toNat = b.toNat) : a = b :=
  Char.ext (UInt32.ext h)

theorem charListLe_total : ∀ as bs, charListLe as bs = true ∨ charListLe bs as = true
  | [], _ => Or.inl rfl
  | _ :: _, [] => Or.inr rfl
  | a :: as, b :: bs => by
    rcases Nat.lt_trichotomy a.toNat b.toNat with h | h | h
    · left; simp [charListLe, h]
    · rcases charListLe_total as bs with ih | ih
      · left; simp [charListLe, h, ih]
      · right; simp [charListLe, h.symm, ih]
    · right; simp [charListLe, h]

instance : IsTotal String strLeP := ⟨fun a b => charListLe_total a.data b.data⟩

theorem charListLe_trans : ∀ as bs cs, charListLe as bs = true → charListLe bs cs = true →
    charListLe as cs = true
  | [], _, _, _, _ => rfl
  | _ :: _, [], _, hab, _ => by simp [charListLe] at hab
  | _ :: _, _ :: _, [], _, hbc => by simp [charListLe] at hbc
  | a :: as, b :: bs, c :: cs, hab, hbc => by
    rcases Nat.lt_trichotomy a.toNat b.toNat with h1 | h1 | h1 <;>
      rcases Nat.lt_trichotomy b.toNat c.toNat with h2 | h2 | h2
    · simp [charListLe, show a.toNat < c.toNat by omega]
    · simp [charListLe, show a.toNat < c.toNat by omega]
    · simp [charListLe, h2, Nat.lt_asymm h2] at hbc
    · simp [charListLe, show a.toNat < c.toNat by omega]
    · simp [charListLe, h1, h2] at hab hbc ⊢
      exact charListLe_trans as bs cs hab hbc
    · simp [charListLe, h2, Nat.lt_asymm h2] at hbc
    · simp [charListLe, h1, Nat.lt_asymm h1] at hab
    · simp [charListLe, h1, Nat.lt_asymm h1] at hab
    · simp [charListLe, h1, Nat.lt_asymm h1] at hab

instance : IsTrans String strLeP :=
  ⟨fun a b c hab hbc => charListLe_trans a.data b.data c.data hab hbc⟩

theorem charListLe_antisymm : ∀ as bs, charListLe as bs = true → charListLe bs as = true →
    as = bs
  | [], [], _, _ => rfl
  | [], _ :: _, _, hba => by simp [charListLe] at hba
  | _ :: _, [], hab, _ => by simp [charListLe] at hab
  | a :: as, b :: bs, hab, hba => by
    rcases Nat.lt_trichotomy a.toNat b.toNat with h | h | h
    · simp [charListLe, h, Nat.lt_asymm h] at hba
    · simp only [charListLe, h, lt_self_iff_false, if_false] at hab hba
      exact congrArg₂ (· :: ·) (char_toNat_inj h) (charListLe_antisymm as bs hab hba)
    · simp [charListLe, h, Nat.lt_asymm h] at hab

instance : IsAntisymm String strLeP :=
  ⟨fun a b hab hba => String.ext (charListLe_antisymm a.data b.data hab hba)⟩

theorem charListLe_refl : ∀ as, charListLe as as = true
  | [] => rfl
  | _ :: as => by simp [charListLe, charListLe_refl as]

instance : IsRefl String strLeP := ⟨fun a => charListLe_refl a.data⟩

theorem pySorted_sorted (l : List String) : (pySorted l).Sorted strLeP :=
  List.sorted_insertionSort strLeP l

theorem pySorted_perm (l : List String) : List.Perm (pySorted l) l :=
  List.perm_insertionSort strLeP l

theorem pySorted_of_sorted {l : List String} (h : l.Sorted strLeP) : pySorted l = l :=
  h.insertionSort_eq

theorem pySorted_idem (l : List String) : pySorted (pySorted l) = pySorted l :=
  pySorted_of_sorted (pySorted_sorted l)

theorem pySorted_eq_iff_perm {a b : List String} : pySorted a = pySorted b ↔ List.Perm a b := by
  constructor
  · intro h
    exact ((pySorted_perm a).symm.trans (h ▸ pySorted_perm b : List.Perm (pySorted a) b))
  · intro h
    refine List.eq_of_perm_of_sorted ?_ (pySorted_sorted a) (pySorted_sorted b)
    exact (pySorted_perm a).trans (h.trans (pySorted_perm b).symm)

theorem pySorted_length (l : List String) : (pySorted l).length = l.length :=
  (pySorted_perm l).length_eq

theorem pySorted_eq_nil_iff {l : List String} : pySorted l = [] ↔ l = [] := by
  constructor
  · intro h
    have := pySorted_length l
    rw [h] at this
    exact List.length_eq_zero.mp this.symm
  · intro h; subst h; rfl

/-! ### Python `"%02d"` formatting

`"zk%02d.%s." % (idx, zone)` renders `idx` in decimal, zero-padded to a
minimum width of two.  The decimal digits are computed with explicit fuel
so that the definition is structurally recursive and kernel-evaluable; a
decoding function provides a left inverse, giving injectivity. -/

/-- One decimal digit as a character, for 0-9. -/
def digitChar (d : Nat) : Char := Char.ofNat (48 + d)

/-- Little-endian decimal digits, with explicit fuel for structural recursion. -/
def decDigitsAux : Nat → Nat → List Nat
  | 0, _ => []
  | _ + 1, 0 => []
  | fuel + 1, n + 1 => ((n + 1) % 10) :: decDigitsAux fuel ((n + 1) / 10)

def decDigits (n : Nat) : List Nat := decDigitsAux n n

/-- Decimal rendering of a natural number, as Python's `str` / `"%d"`. -/
def decimalRepr (n : Nat) : String :=
  if n = 0 then "0" else String.mk (((decDigits n).reverse).map digitChar)

/-- Python's `"%02d" % n`: decimal, zero-padded to a minimum width of two. -/
def format02 (n : Nat) : String :=
  if n < 10 then "0" ++ decimalRepr n else decimalRepr n

def charToDigit (c : Char) : Nat := c.toNat - 48

def undigitsList : List Nat → Nat
  | [] => 0
  | d :: ds => d + 10 * undigitsList ds

/-- Decode the decimal string produced by `decimalRepr` / `format02`. -/
def undigitsString (s : String) : Nat := undigitsList ((s.data.map charToDigit).reverse)

theorem undigitsList_decDigitsAux : ∀ fuel n, n ≤ fuel →
    undigitsList (decDigitsAux fuel n) = n
  | 0, 0, _ => rfl
  | 0, _ + 1, h => absurd h (by omega)
  | _ + 1, 0, _ => rfl
  | fuel + 1, n + 1, h => by
    have hdiv : (n + 1) / 10 ≤ fuel := by
      have := Nat.div_le_self (n + 1) 10
      have := Nat.div_lt_self (Nat.succ_pos n) (by omega : 1 < 10)
      omega
    simp only [decDigitsAux, undigitsList, undigitsList_decDigitsAux fuel _ hdiv]
    omega

theorem undigitsList_decDigits (n : Nat) : undigitsList (decDigits n) = n :=
  undigitsList_decDigitsAux n n (Nat.le_refl n)

theorem decDigitsAux_lt_ten : ∀ fuel n d, d ∈ decDigitsAux fuel n → d < 10
  | 0, _, d, h => absurd h (by simp [decDigitsAux])
  | _ + 1, 0, d, h => absurd h (by simp [decDigitsAux])
  | fuel + 1, n + 1, d, h => by
    simp only [decDigitsAux, List.mem_cons] at h
    rcases h with h | h
    · omega
    · exact decDigitsAux_lt_ten fuel _ d h

theorem charToDigit_digitChar {d : Nat} (h : d < 10) : charToDigit (digitChar d) = d := by
  interval_cases d <;> decide

theorem undigitsString_decimalRepr (n : Nat) : undigitsString (decimalRepr n) = n := by
  by_cases h : n = 0
  · subst h; decide
  · simp only [decimalRepr, if_neg h, undigitsString]
    show undigitsList ((((decDigits n).reverse.map digitChar).map charToDigit).reverse) = n
    rw [List.map_map]
    have hmap : ∀ d ∈ (decDigits n).reverse, (charToDigit ∘ digitChar) d = id d := fun d hd =>
      charToDigit_digitChar (decDigitsAux_lt_ten n n d (List.mem_reverse.mp hd))
    rw [List.map_congr_left hmap, List.map_id, List.reverse_reverse]
    exact undigitsList_decDigits n

theorem undigitsList_append_zero : ∀ ds, undigitsList (ds ++ [0]) = undigitsList ds
  | [] => rfl
  | d :: ds => by
    show undigitsList (d :: (ds ++ [0])) = undigitsList (d :: ds)
    simp only [undigitsList]
    rw [undigitsList_append_zero ds]

theorem undigitsString_format02 (n : Nat) : undigitsString (format02 n) = n := by
  by_cases h : n < 10
  · simp only [format02, if_pos h, undigitsString]
    by_cases h0 : n = 0
    · subst h0; decide
    · show undigitsList (((("0".data ++ (decimalRepr n).data)).map charToDigit).reverse) = n
      simp only [decimalRepr, if_neg h0]
      show undigitsList ((('0' :: ((decDigits n).reverse.map digitChar)).map charToDigit).reverse)
        = n
      simp only [List.map_cons, List.reverse_cons, List.map_map]
      have hmap : ∀ d ∈ (decDigits n).reverse, (charToDigit ∘ digitChar) d = id d := fun d hd =>
        charToDigit_digitChar (decDigitsAux_lt_ten n n d (List.mem_reverse.mp hd))
      rw [List.map_congr_left hmap, List.map_id, List.reverse_reverse]
      show undigitsList (decDigits n ++ [charToDigit '0']) = n
      rw [show charToDigit '0' = 0 from rfl, undigitsList_append_zero]
      exact undigitsList_decDigits n
  · simp only [format02, if_neg h]
    exact undigitsString_decimalRepr n

theorem format02_inj {m n : Nat} (h : format02 m = format02 n) : m = n := by
  have hm := undigitsString_format02 m
  rw [h, undigitsString_format02 n] at hm
  exact hm.symm

/-! ### Data model

JSON shapes read from the Route53 list API, the change-batch shape written
to the Route53 change API, the provider-side record store, and the
reconciler's decision. -/

/-- One entry of a record set's `ResourceRecords` as read back from the
provider; `value` is `record.get('Value')`, absent keys giving `none`. -/
structure ResourceRecordJson where
  value : Option String
deriving DecidableEq

/-- One record set of a `list_resource_record_sets` response;
`name` is `record_set.get('Name', '')` and `resourceRecords` is
`record_set.get('ResourceRecords', [])`. -/
structure RecordSetJson where
  name : String
  resourceRecords : List ResourceRecordJson
deriving DecidableEq

/-- A `list_resource_record_sets` response: `res.get('ResourceRecordSets', [])`. -/
structure ListResponse where
  resourceRecordSets : List RecordSetJson
deriving DecidableEq

/-- A `{'Value': value}` entry submitted in a change. -/
structure ResourceRecord where
  value : String
deriving DecidableEq

/-- The `ResourceRecordSet` dict of a change. -/
structure ResourceRecordSetChange where
  name : String
  rtype : String
  ttl : Int
  resourceRecords : List ResourceRecord
deriving DecidableEq

/-- One entry of a `ChangeBatch`'s `Changes`. -/
structure Change where
  action : String
  resourceRecordSet : ResourceRecordSetChange
deriving DecidableEq

structure ChangeBatch where
  changes : List Change
deriving DecidableEq

/-- One `change_resource_record_sets` provider API call. -/
structure ApiCall where
  hostedZoneId : String
  changeBatch : ChangeBatch
deriving DecidableEq

/-- Provider-side state of one A record set in the hosted zone. -/
structure StoredRecord where
  name : String
  values : List String
  ttl : Int
deriving DecidableEq

/-- The reconciler's decision for one record name, as logged by `main`. -/
inductive Action where
  | create
  | update
  | upToDate
deriving DecidableEq

/-- Possible outcomes of the Exhibitor endpoint interaction: the HTTP GET
may fail, the body may not be JSON, the JSON may lack a `servers` field, or
it may carry a `servers` list. -/
inductive ExhibitorResponse where
  | httpFailure
  | nonJson
  | jsonNoServers
  | jsonServers (servers : List String)
deriving DecidableEq

/-- Command-line arguments of the program (`parse_args`). -/
structure Args where
  zone : String
  rr : String
  exhibitor_url : String
  ttl : Int
deriving DecidableEq

/-! ### Source embeddings -/

/-- `get_zk_servers` (main.py lines 34-38): returns
`sorted(requests.get(url, headers=headers).json()['servers'])`; any HTTP
failure, JSON decode failure, or missing `servers` key raises, and the
exception propagates to the caller. -/
def get_zk_servers : ExhibitorResponse → Except String (List String)
  | .httpFailure => .error "requests.exceptions.RequestException"
  | .nonJson => .error "json.JSONDecodeError"
  | .jsonNoServers => .error "KeyError: servers"
  | .jsonServers servers => .ok (pySorted servers)

/-- The collection loop of `fetch_existing_resource_records` (main.py lines
123-132): walk the returned record sets in order, skip any whose `Name` is
not exactly `target_fqdn`, and append every present `Value`. -/
def collectValues : List RecordSetJson → String → List String
  | [], _ => []
  | record_set :: rest, target_fqdn =>
    (if record_set.name = target_fqdn
      then record_set.resourceRecords.filterMap (fun record => record.value)
      else [])
      ++ collectValues rest target_fqdn

/-- `fetch_existing_resource_records` (main.py lines 120-134): list record
sets starting at `target_fqdn`, keep exact name matches only, collect their
values, return them sorted. -/
def fetch_existing_resource_records (res : ListResponse) (target_fqdn : String) : List String :=
  pySorted (collectValues res.resourceRecordSets target_fqdn)

/-- The aggregate-record FQDN computation (main.py lines 50-53):
`args.rr[-1]` raises `IndexError` on an empty string (modelled as `none`);
otherwise the name is used verbatim when it ends in a dot and is otherwise
concatenated as `'%s.%s.' % (args.rr, args.zone)`. -/
def target_fqdn_of (rr zone : String) : Option String :=
  match rr.data.getLast? with
  | none => none
  | some c => if c = '.' then some rr else some (rr ++ "." ++ zone ++ ".")

/-- The reconciliation decision (main.py lines 62-71, repeated at 81-90):
given desired values `ip_list` and the fetched `existing_record`, decide
the logged action and which value lists `upsert_record` is invoked with. -/
def reconcile (ip_list existing_record : List String) : Action × List (List String) :=
  if existing_record ≠ [] then
    if pySorted ip_list ≠ pySorted existing_record then
      (Action.update, [ip_list])
    else (Action.upToDate, [])
  else (Action.create, [ip_list])

/-- Environment model of the provider effect of one successful `UPSERT`
change batch: create-or-replace of the named record set, so that a
subsequent read of the record returns the submitted value list and TTL.
Batches not of the single-change shape built by `upsert_record` are
ignored. -/
def route53Upsert (store : List StoredRecord) (c : ApiCall) : List StoredRecord :=
  match c.changeBatch.changes with
  | [ch] =>
    (store.filter (fun r => r.name != ch.resourceRecordSet.name)) ++
      [⟨ch.resourceRecordSet.name,
        ch.resourceRecordSet.resourceRecords.map (fun rr => rr.value),
        ch.resourceRecordSet.ttl⟩]
  | _ => store

/-- The change-batch call built by `upsert_record` (main.py lines 102-115):
one `UPSERT` change for `target_fqdn`, type `A`, the given TTL, and one
`{'Value': value}` entry per element of `ip_list`. -/
def upsertApiCall (hosted_zone_id target_fqdn : String) (ip_list : List String) (ttl : Int) :
    ApiCall :=
  ⟨hosted_zone_id,
    ⟨[⟨"UPSERT", ⟨target_fqdn, "A", ttl, ip_list.map (fun value => ResourceRecord.mk value)⟩⟩]⟩⟩

/-- `upsert_record` (main.py lines 95-117), with the provider modelled by
`pe`: `pe call = some e` means the provider raises `e` on that call, and
`pe call = none` means it succeeds with the `route53Upsert` effect.  The
result is the new store, the API calls issued, and the exception caught and
logged by the `except` block (`none` when no exception was raised).  The
value list is first wrapped into `{'Value': value}` entries; if that list
is empty no API call is made; the bare `except` swallows any provider
error. -/
def upsert_record (pe : ApiCall → Option String) (store : List StoredRecord)
    (hosted_zone_id target_fqdn : String) (ip_list : List String) (ttl : Int) :
    List StoredRecord × List ApiCall × Option String :=
  let resource_records := ip_list.map (fun value => ResourceRecord.mk value)
  if resource_records ≠ [] then
    let call : ApiCall := upsertApiCall hosted_zone_id target_fqdn ip_list ttl
    match pe call with
    | some e => (store, [call], some e)
    | none => (route53Upsert store call, [call], none)
  else (store, [], none)

/-- Environment model of `client.list_resource_record_sets(HostedZoneId=...,
StartRecordName=target_fqdn, StartRecordType='A')`: a range scan returning
the record sets whose name is alphabetically at or after the start name,
not only exact matches. -/
def listRecordSets (store : List StoredRecord) (startRecordName : String) : ListResponse :=
  ⟨(store.filter (fun r => strLe startRecordName r.name)).map
    (fun r => ⟨r.name, r.values.map (fun v => ⟨some v⟩)⟩)⟩

/-- Reading one record name from the provider state: the composition of the
range-scan list API with `fetch_existing_resource_records`. -/
def fetchStore (store : List StoredRecord) (target_fqdn : String) : List String :=
  fetch_existing_resource_records (listRecordSets store target_fqdn) target_fqdn

/-- One fetch-compare-upsert block of `main` (lines 60-71 for the aggregate
record, lines 79-90 for a per-member record): fetch the existing record,
decide create / update / up-to-date, and invoke `upsert_record` on the
create and update branches.  Returns the new store, the logged action, the
API calls issued, and any caught provider error. -/
def reconcile_upsert (pe : ApiCall → Option String) (store : List StoredRecord)
    (hosted_zone_id target_fqdn : String) (ip_list : List String) (ttl : Int) :
    List StoredRecord × Action × List ApiCall × Option String :=
  let existing_record := fetchStore store target_fqdn
  if existing_record ≠ [] then
    if pySorted ip_list ≠ pySorted existing_record then
      let r := upsert_record pe store hosted_zone_id target_fqdn ip_list ttl
      (r.1, Action.update, r.2.1, r.2.2)
    else (store, Action.upToDate, [], none)
  else
    let r := upsert_record pe store hosted_zone_id target_fqdn ip_list ttl
    (r.1, Action.create, r.2.1, r.2.2)

/-- The per-member FQDN `"zk%02d.%s." % (idx, args.zone)` (main.py line 75). -/
def zk_fqdn (zone : String) (idx : Nat) : String :=
  "zk" ++ format02 idx ++ "." ++ zone ++ "."

/-- The per-member records driven by the loop at main.py lines 73-78:
`enumerate(sorted(exhibitor_list))` with 1-based rank `idx = i + 1` names
record `zk%02d.<zone>.` with the singleton desired list `[zkserver_ip]`. -/
def per_member_records (zone : String) (exhibitor_list : List String) :
    List (String × List String) :=
  (pySorted exhibitor_list).enum.map (fun p => (zk_fqdn zone (p.1 + 1), [p.2]))

/-- The outcome of one record's fetch-compare-upsert block. -/
structure Outcome where
  fqdn : String
  action : Action
  calls : List ApiCall
  loggedError : Option String
deriving DecidableEq

/-- Sequential processing of the run's records (the aggregate block
followed by the per-member loop), threading the provider store. -/
def processRecords (pe : ApiCall → Option String) (hosted_zone_id : String) (ttl : Int) :
    List (String × List String) → List StoredRecord → List StoredRecord × List Outcome
  | [], store => (store, [])
  | (target_fqdn, ip_list) :: rest, store =>
    let r := reconcile_upsert pe store hosted_zone_id target_fqdn ip_list ttl
    let rec' := processRecords pe hosted_zone_id ttl rest r.1
    (rec'.1, ⟨target_fqdn, r.2.1, r.2.2.1, r.2.2.2⟩ :: rec'.2)

/-- Externally observable operations completed during a run. -/
inductive Event where
  | zoneLookup (zone : String)
  | ensembleFetch (url : String)
  | recordFetch (target_fqdn : String)
  | upsertCall (c : ApiCall)
deriving DecidableEq

/-- `main` (main.py lines 41-92): resolve the hosted zone (uncaught failure
aborts), compute the aggregate FQDN (`IndexError` on empty `--rr` aborts),
fetch the ensemble members (uncaught failure aborts), then reconcile and
upsert the aggregate record followed by one record per member.
`hostedZones` is the id list of `zone.get('HostedZones')`; `pe` is the
provider's behaviour on each change call.  Returns the trace of completed
operations and either the fatal uncaught error or the final store with all
issued API calls. -/
def run (args : Args) (hostedZones : Except String (List String))
    (exhibitor : ExhibitorResponse) (pe : ApiCall → Option String)
    (store : List StoredRecord) :
    List Event × Except String (List StoredRecord × List ApiCall) :=
  match hostedZones with
  | .error e => ([], .error e)
  | .ok hzs =>
    match hzs with
    | [] => ([Event.zoneLookup args.zone], .error "IndexError: list index out of range")
    | hosted_zone_id :: _ =>
      match target_fqdn_of args.rr args.zone with
      | none => ([Event.zoneLookup args.zone], .error "IndexError: string index out of range")
      | some target_fqdn =>
        match get_zk_servers exhibitor with
        | .error e => ([Event.zoneLookup args.zone], .error e)
        | .ok exhibitor_list =>
          let records := (target_fqdn, exhibitor_list) ::
            per_member_records args.zone exhibitor_list
          let r := processRecords pe hosted_zone_id args.ttl records store
          ([Event.zoneLookup args.zone, Event.ensembleFetch args.exhibitor_url] ++
            r.2.flatMap (fun o => Event.recordFetch o.fqdn :: o.calls.map Event.upsertCall),
           .ok (r.1, r.2.flatMap (fun o => o.calls)))

/-! ### Reading the store through the list API -/

/-- The multiset of values the store holds at exactly `target_fqdn`. -/
def storeValuesAt (store : List StoredRecord) (target_fqdn : String) : List String :=
  ((store.filter (fun r => r.name == target_fqdn)).map (fun r => r.values)).flatten

theorem collectValues_eq (sets : List RecordSetJson) (t : String) :
    collectValues sets t = ((sets.filter (fun rs => rs.name == t)).map
      (fun rs => rs.resourceRecords.filterMap (fun record => record.value))).flatten := by
  induction sets with
  | nil => rfl
  | cons rs rest ih =>
    by_cases h : rs.name = t
    · simp [collectValues, h, ih]
    · simp [collectValues, h, ih]

theorem strLe_refl (s : String) : strLe s s = true := charListLe_refl s.data

/-- The range scan plus exact-name post-filter reads exactly the values the
store holds at the target name, sorted. -/
theorem fetchStore_eq (store : List StoredRecord) (g : String) :
    fetchStore store g = pySorted (storeValuesAt store g) := by
  unfold fetchStore fetch_existing_resource_records listRecordSets storeValuesAt
  congr 1
  rw [collectValues_eq]
  rw [List.filter_map, List.map_map, List.filter_filter]
  have hfilter : ∀ r ∈ store,
      (((fun rs : RecordSetJson => rs.name == g) ∘ fun r : StoredRecord =>
          (⟨r.name, r.values.map (fun v => ⟨some v⟩)⟩ : RecordSetJson)) r
        && strLe g r.name)
      = (r.name == g) := by
    intro r _
    by_cases h : r.name = g
    · simp [Function.comp, h, strLe_refl]
    · simp [Function.comp, h]
  rw [List.filter_congr hfilter]
  congr 1
  apply List.map_congr_left
  intro r _
  simp only [Function.comp]
  rw [List.filterMap_map]
  exact List.filterMap_some _

/-! ### Behaviour of the writer and of one reconcile block -/

theorem upsert_record_nil (pe : ApiCall → Option String) (store : List StoredRecord)
    (hosted_zone_id target_fqdn : String) (ttl : Int) :
    upsert_record pe store hosted_zone_id target_fqdn [] ttl = (store, [], none) := by
  simp [upsert_record]

theorem upsert_record_ne_nil (pe : ApiCall → Option String) (store : List StoredRecord)
    (hosted_zone_id target_fqdn : String) (ip_list : List String) (ttl : Int)
    (hl : ip_list ≠ []) :
    upsert_record pe store hosted_zone_id target_fqdn ip_list ttl =
      (match pe (upsertApiCall hosted_zone_id target_fqdn ip_list ttl) with
       | some e => (store, [upsertApiCall hosted_zone_id target_fqdn ip_list ttl], some e)
       | none => (route53Upsert store (upsertApiCall hosted_zone_id target_fqdn ip_list ttl),
           [upsertApiCall hosted_zone_id target_fqdn ip_list ttl], none)) := by
  have hm : ip_list.map (fun value => ResourceRecord.mk value) ≠ [] := by simpa using hl
  simp only [upsert_record, if_pos hm]

theorem storeValuesAt_upsert_self (store : List StoredRecord)
    (hosted_zone_id target_fqdn : String) (ip_list : List String) (ttl : Int) :
    storeValuesAt (route53Upsert store (upsertApiCall hosted_zone_id target_fqdn ip_list ttl))
      target_fqdn = ip_list := by
  simp only [route53Upsert, upsertApiCall, storeValuesAt]
  rw [List.filter_append, List.filter_filter]
  have h1 : ∀ r ∈ store, ((r.name == target_fqdn) && (r.name != target_fqdn)) = false := by
    intro r _
    by_cases h : r.name = target_fqdn <;> simp [h]
  rw [List.filter_congr h1]
  simp [List.map_map, Function.comp]
  have h2 : List.map ((fun rr : ResourceRecord => rr.value) ∘ fun value =>
      ResourceRecord.mk value) ip_list = List.map id ip_list := rfl
  rw [h2, List.map_id]

theorem storeValuesAt_upsert_other (store : List StoredRecord)
    (hosted_zone_id target_fqdn : String) (ip_list : List String) (ttl : Int)
    (g : String) (hne : g ≠ target_fqdn) :
    storeValuesAt (route53Upsert store (upsertApiCall hosted_zone_id target_fqdn ip_list ttl)) g
      = storeValuesAt store g := by
  simp only [route53Upsert, upsertApiCall, storeValuesAt]
  rw [List.filter_append, List.filter_filter]
  have h1 : ∀ r ∈ store, ((r.name == g) && (r.name != target_fqdn)) = (r.name == g) := by
    intro r _
    by_cases h : r.name = g
    · subst h; simp [hne]
    · simp [h]
  rw [List.filter_congr h1]
  simp [Ne.symm hne]

theorem upsert_record_frame (pe : ApiCall → Option String) (store : List StoredRecord)
    (hosted_zone_id target_fqdn : String) (ip_list : List String) (ttl : Int)
    (g : String) (hne : g ≠ target_fqdn) :
    storeValuesAt (upsert_record pe store hosted_zone_id target_fqdn ip_list ttl).1 g
      = storeValuesAt store g := by
  by_cases hl : ip_list = []
  · subst hl; rw [upsert_record_nil]
  · rw [upsert_record_ne_nil pe store hosted_zone_id target_fqdn ip_list ttl hl]
    cases pe (upsertApiCall hosted_zone_id target_fqdn ip_list ttl) with
    | none => exact storeValuesAt_upsert_other store hosted_zone_id target_fqdn ip_list ttl g hne
    | some e => rfl

theorem upsert_record_preserves_nonempty (pe : ApiCall → Option String)
    (store : List StoredRecord) (hosted_zone_id target_fqdn : String)
    (ip_list : List String) (ttl : Int) (g : String)
    (h : storeValuesAt store g ≠ []) :
    storeValuesAt (upsert_record pe store hosted_zone_id target_fqdn ip_list ttl).1 g ≠ [] := by
  by_cases hg : g = target_fqdn
  · subst hg
    by_cases hl : ip_list = []
    · subst hl; rw [upsert_record_nil]; exact h
    · rw [upsert_record_ne_nil pe store hosted_zone_id g ip_list ttl hl]
      cases pe (upsertApiCall hosted_zone_id g ip_list ttl) with
      | none =>
        show storeValuesAt (route53Upsert store (upsertApiCall hosted_zone_id g ip_list ttl)) g
          ≠ []
        rw [storeValuesAt_upsert_self]
        exact hl
      | some e => exact h
  · rw [upsert_record_frame pe store hosted_zone_id target_fqdn ip_list ttl g hg]
    exact h

theorem fetchStore_pySorted (store : List StoredRecord) (g : String) :
    pySorted (fetchStore store g) = fetchStore store g := by
  rw [fetchStore_eq]; exact pySorted_idem _

theorem fetchStore_eq_nil_iff {store : List StoredRecord} {g : String} :
    fetchStore store g = [] ↔ storeValuesAt store g = [] := by
  rw [fetchStore_eq]; exact pySorted_eq_nil_iff

theorem upsert_record_ok_store (store : List StoredRecord)
    (hosted_zone_id target_fqdn : String) (ip_list : List String) (ttl : Int)
    (hl : ip_list ≠ []) :
    (upsert_record (fun _ => none) store hosted_zone_id target_fqdn ip_list ttl).1
      = route53Upsert store (upsertApiCall hosted_zone_id target_fqdn ip_list ttl) := by
  rw [upsert_record_ne_nil _ store hosted_zone_id target_fqdn ip_list ttl hl]

theorem upsert_record_calls (pe : ApiCall → Option String) (store : List StoredRecord)
    (hosted_zone_id target_fqdn : String) (ip_list : List String) (ttl : Int) :
    (upsert_record pe store hosted_zone_id target_fqdn ip_list ttl).2.1 =
      if ip_list = [] then []
      else [upsertApiCall hosted_zone_id target_fqdn ip_list ttl] := by
  by_cases hl : ip_list = []
  · subst hl; rw [upsert_record_nil, if_pos rfl]
  · rw [upsert_record_ne_nil pe store hosted_zone_id target_fqdn ip_list ttl hl, if_neg hl]
    cases pe (upsertApiCall hosted_zone_id target_fqdn ip_list ttl) <;> rfl

theorem fetchStore_upsert_self (store : List StoredRecord)
    (hosted_zone_id target_fqdn : String) (ip_list : List String) (ttl : Int) :
    fetchStore (route53Upsert store (upsertApiCall hosted_zone_id target_fqdn ip_list ttl))
      target_fqdn = pySorted ip_list := by
  rw [fetchStore_eq, storeValuesAt_upsert_self]

theorem reconcile_upsert_upToDate (pe : ApiCall → Option String) (store : List StoredRecord)
    (hosted_zone_id target_fqdn : String) (ip_list : List String) (ttl : Int)
    (h1 : fetchStore store target_fqdn ≠ [])
    (h2 : pySorted ip_list = pySorted (fetchStore store target_fqdn)) :
    reconcile_upsert pe store hosted_zone_id target_fqdn ip_list ttl
      = (store, Action.upToDate, [], none) := by
  simp only [reconcile_upsert]
  rw [if_pos h1, if_neg (not_not_intro h2)]

theorem reconcile_upsert_empty_desired (pe : ApiCall → Option String)
    (store : List StoredRecord) (hosted_zone_id target_fqdn : String) (ttl : Int) :
    reconcile_upsert pe store hosted_zone_id target_fqdn [] ttl
      = (store,
         if fetchStore store target_fqdn ≠ [] then Action.update else Action.create,
         [], none) := by
  simp only [reconcile_upsert]
  by_cases h1 : fetchStore store target_fqdn ≠ []
  · have hne : pySorted ([] : List String) ≠ pySorted (fetchStore store target_fqdn) := by
      intro hh
      exact h1 (pySorted_eq_nil_iff.mp hh.symm)
    rw [if_pos h1, if_pos hne, if_pos h1, upsert_record_nil]
  · rw [if_neg h1, if_neg h1, upsert_record_nil]

theorem reconcile_upsert_no_call (pe : ApiCall → Option String) (store : List StoredRecord)
    (hosted_zone_id target_fqdn : String) (ip_list : List String) (ttl : Int)
    (h : ip_list ≠ [] → fetchStore store target_fqdn = pySorted ip_list) :
    ∃ act, reconcile_upsert pe store hosted_zone_id target_fqdn ip_list ttl
      = (store, act, [], none) := by
  by_cases hl : ip_list = []
  · subst hl
    exact ⟨_, reconcile_upsert_empty_desired pe store hosted_zone_id target_fqdn ttl⟩
  · have hf := h hl
    have h1 : fetchStore store target_fqdn ≠ [] := by
      rw [hf]
      exact fun hh => hl (pySorted_eq_nil_iff.mp hh)
    have h2 : pySorted ip_list = pySorted (fetchStore store target_fqdn) := by
      rw [hf, pySorted_idem]
    exact ⟨_, reconcile_upsert_upToDate pe store hosted_zone_id target_fqdn ip_list ttl h1 h2⟩

theorem reconcile_upsert_post_ok (store : List StoredRecord)
    (hosted_zone_id target_fqdn : String) (ip_list : List String) (ttl : Int)
    (hd : ip_list ≠ []) :
    fetchStore (reconcile_upsert (fun _ => none) store hosted_zone_id target_fqdn ip_list ttl).1
      target_fqdn = pySorted ip_list := by
  by_cases h1 : fetchStore store target_fqdn ≠ []
  · by_cases h2 : pySorted ip_list = pySorted (fetchStore store target_fqdn)
    · rw [reconcile_upsert_upToDate _ store hosted_zone_id target_fqdn ip_list ttl h1 h2]
      rw [h2, fetchStore_pySorted]
    · simp only [reconcile_upsert]
      rw [if_pos h1, if_pos h2]
      simp only
      rw [upsert_record_ok_store store hosted_zone_id target_fqdn ip_list ttl hd]
      exact fetchStore_upsert_self store hosted_zone_id target_fqdn ip_list ttl
  · simp only [reconcile_upsert]
    rw [if_neg h1]
    simp only
    rw [upsert_record_ok_store store hosted_zone_id target_fqdn ip_list ttl hd]
    exact fetchStore_upsert_self store hosted_zone_id target_fqdn ip_list ttl

theorem reconcile_upsert_frame (pe : ApiCall → Option String) (store : List StoredRecord)
    (hosted_zone_id target_fqdn : String) (ip_list : List String) (ttl : Int)
    (g : String) (hne : g ≠ target_fqdn) :
    storeValuesAt (reconcile_upsert pe store hosted_zone_id target_fqdn ip_list ttl).1 g
      = storeValuesAt store g := by
  simp only [reconcile_upsert]
  by_cases h1 : fetchStore store target_fqdn ≠ []
  · by_cases h2 : pySorted ip_list ≠ pySorted (fetchStore store target_fqdn)
    · rw [if_pos h1, if_pos h2]
      exact upsert_record_frame pe store hosted_zone_id target_fqdn ip_list ttl g hne
    · rw [if_pos h1, if_neg h2]
  · rw [if_neg h1]
    exact upsert_record_frame pe store hosted_zone_id target_fqdn ip_list ttl g hne

theorem reconcile_upsert_preserves_nonempty (pe : ApiCall → Option String)
    (store : List StoredRecord) (hosted_zone_id target_fqdn : String)
    (ip_list : List String) (ttl : Int) (g : String)
    (h : fetchStore store g ≠ []) :
    fetchStore (reconcile_upsert pe store hosted_zone_id target_fqdn ip_list ttl).1 g ≠ [] := by
  rw [Ne, fetchStore_eq_nil_iff] at h ⊢
  simp only [reconcile_upsert]
  by_cases h1 : fetchStore store target_fqdn ≠ []
  · by_cases h2 : pySorted ip_list ≠ pySorted (fetchStore store target_fqdn)
    · rw [if_pos h1, if_pos h2]
      exact upsert_record_preserves_nonempty pe store hosted_zone_id target_fqdn ip_list ttl g h
    · rw [if_pos h1, if_neg h2]
      exact h
  · rw [if_neg h1]
    exact upsert_record_preserves_nonempty pe store hosted_zone_id target_fqdn ip_list ttl g h

theorem reconcile_upsert_calls (pe : ApiCall → Option String) (store : List StoredRecord)
    (hosted_zone_id target_fqdn : String) (ip_list : List String) (ttl : Int) :
    (reconcile_upsert pe store hosted_zone_id target_fqdn ip_list ttl).2.2.1 =
      if ip_list ≠ [] ∧
          (fetchStore store target_fqdn = [] ∨ pySorted ip_list ≠ fetchStore store target_fqdn)
      then [upsertApiCall hosted_zone_id target_fqdn ip_list ttl] else [] := by
  simp only [reconcile_upsert]
  by_cases h1 : fetchStore store target_fqdn ≠ []
  · by_cases h2 : pySorted ip_list ≠ pySorted (fetchStore store target_fqdn)
    · rw [if_pos h1, if_pos h2]
      simp only
      rw [upsert_record_calls]
      by_cases hl : ip_list = []
      · rw [if_pos hl, if_neg]
        simp [hl]
      · rw [if_neg hl, if_pos]
        refine ⟨hl, Or.inr ?_⟩
        rw [← fetchStore_pySorted store target_fqdn]
        exact h2
    · rw [if_pos h1, if_neg h2]
      rw [if_neg]
      push_neg at h2
      intro hc
      rcases hc.2 with hc2 | hc2
      · exact h1 hc2
      · rw [← fetchStore_pySorted store target_fqdn] at hc2
        exact hc2 h2
  · rw [if_neg h1]
    simp only
    rw [upsert_record_calls]
    push_neg at h1
    by_cases hl : ip_list = []
    · rw [if_pos hl, if_neg]
      simp [hl]
    · rw [if_neg hl, if_pos ⟨hl, Or.inl h1⟩]

/-! ### Behaviour of the record-processing sequence -/

theorem processRecords_fqdns (pe : ApiCall → Option String) (hosted_zone_id : String)
    (ttl : Int) :
    ∀ (records : List (String × List String)) (store : List StoredRecord),
      ((processRecords pe hosted_zone_id ttl records store).2.map (fun o => o.fqdn))
        = records.map Prod.fst
  | [], _ => rfl
  | (g, d) :: rest, store => by
    simp only [processRecords, List.map_cons]
    rw [processRecords_fqdns pe hosted_zone_id ttl rest _]

theorem processRecords_frame (pe : ApiCall → Option String) (hosted_zone_id : String)
    (ttl : Int) :
    ∀ (records : List (String × List String)) (store : List StoredRecord) (g : String),
      g ∉ records.map Prod.fst →
      storeValuesAt (processRecords pe hosted_zone_id ttl records store).1 g
        = storeValuesAt store g
  | [], _, _, _ => rfl
  | (f, d) :: rest, store, g, hg => by
    simp only [List.map_cons, List.mem_cons] at hg
    push_neg at hg
    simp only [processRecords]
    rw [processRecords_frame pe hosted_zone_id ttl rest _ g hg.2]
    exact reconcile_upsert_frame pe store hosted_zone_id f d ttl g hg.1

theorem processRecords_preserves_nonempty (pe : ApiCall → Option String)
    (hosted_zone_id : String) (ttl : Int) :
    ∀ (records : List (String × List String)) (store : List StoredRecord) (g : String),
      fetchStore store g ≠ [] →
      fetchStore (processRecords pe hosted_zone_id ttl records store).1 g ≠ []
  | [], _, _, h => h
  | (f, d) :: rest, store, g, h => by
    simp only [processRecords]
    exact processRecords_preserves_nonempty pe hosted_zone_id ttl rest _ g
      (reconcile_upsert_preserves_nonempty pe store hosted_zone_id f d ttl g h)

/-- After a run with a never-failing provider, every processed record whose
desired list is non-empty reads back as its sorted desired list, provided
the record names are pairwise distinct. -/
theorem processRecords_post (hosted_zone_id : String) (ttl : Int) :
    ∀ (records : List (String × List String)) (store : List StoredRecord),
      (records.map Prod.fst).Nodup →
      ∀ gd ∈ records, gd.2 ≠ [] →
        fetchStore (processRecords (fun _ => none) hosted_zone_id ttl records store).1 gd.1
          = pySorted gd.2
  | [], _, _, gd, hmem, _ => absurd hmem (List.not_mem_nil gd)
  | (f, d) :: rest, store, hnd, gd, hmem, hne => by
    simp only [List.map_cons, List.nodup_cons] at hnd
    simp only [processRecords]
    rcases List.mem_cons.mp hmem with heq | hmem2
    · subst heq
      have hf := reconcile_upsert_post_ok store hosted_zone_id f d ttl hne
      have hframe := processRecords_frame (fun _ => none) hosted_zone_id ttl rest
        (reconcile_upsert (fun _ => none) store hosted_zone_id f d ttl).1 f hnd.1
      rw [fetchStore_eq, hframe, ← fetchStore_eq]
      exact hf
    · exact processRecords_post hosted_zone_id ttl rest _ hnd.2 gd hmem2 hne

/-- When every desired list already reads back as its own sorted form, the
processing sequence issues no API call and leaves the store unchanged. -/
theorem processRecords_no_calls (pe : ApiCall → Option String) (hosted_zone_id : String)
    (ttl : Int) :
    ∀ (records : List (String × List String)) (store : List StoredRecord),
      (∀ gd ∈ records, gd.2 ≠ [] → fetchStore store gd.1 = pySorted gd.2) →
      (processRecords pe hosted_zone_id ttl records store).1 = store ∧
      ∀ o ∈ (processRecords pe hosted_zone_id ttl records store).2, o.calls = []
  | [], store, _ => ⟨rfl, fun o ho => absurd ho (List.not_mem_nil o)⟩
  | (f, d) :: rest, store, h => by
    obtain ⟨act, hact⟩ := reconcile_upsert_no_call pe store hosted_zone_id f d ttl
      (fun hne => h (f, d) (List.mem_cons_self _ _) hne)
    simp only [processRecords, hact]
    obtain ⟨hs, hcalls⟩ := processRecords_no_calls pe hosted_zone_id ttl rest store
      (fun gd hmem hne => h gd (List.mem_cons_of_mem _ hmem) hne)
    refine ⟨hs, ?_⟩
    intro o ho
    rcases List.mem_cons.mp ho with ho1 | ho2
    · subst ho1; rfl
    · exact hcalls o ho2

theorem flatMap_calls_nil {outs : List Outcome} (h : ∀ o ∈ outs, o.calls = []) :
    outs.flatMap (fun o => o.calls) = [] :=
  List.flatMap_eq_nil_iff.mpr h

/-! ### Distinctness of the per-member record names -/

theorem mem_enumFrom_fst_ge {α : Type} : ∀ (l : List α) (n : Nat) (p : Nat × α),
    p ∈ List.enumFrom n l → n ≤ p.1
  | [], _, p, h => absurd h (List.not_mem_nil p)
  | a :: as, n, p, h => by
    simp only [List.enumFrom_cons, List.mem_cons] at h
    rcases h with h1 | h2
    · subst h1; exact Nat.le_refl n
    · exact Nat.le_of_succ_le (mem_enumFrom_fst_ge as (n + 1) p h2)

theorem zk_fqdn_inj {zone : String} {i j : Nat} (h : zk_fqdn zone i = zk_fqdn zone j) :
    i = j := by
  apply format02_inj
  apply String.ext
  have hd := congrArg String.data h
  simp only [zk_fqdn, String.data_append, List.append_assoc] at hd
  have hd2 := List.append_cancel_left hd
  exact List.append_cancel_right hd2

theorem per_member_fqdns_nodup_aux (zone : String) :
    ∀ (l : List String) (n : Nat),
      ((List.enumFrom n l).map (fun p => zk_fqdn zone (p.1 + 1))).Nodup
  | [], _ => List.nodup_nil
  | a :: as, n => by
    simp only [List.enumFrom_cons, List.map_cons, List.nodup_cons]
    constructor
    · intro hmem
      rcases List.mem_map.mp hmem with ⟨p, hp, heq⟩
      have hge := mem_enumFrom_fst_ge as (n + 1) p hp
      have heqn := zk_fqdn_inj heq
      omega
    · exact per_member_fqdns_nodup_aux zone as (n + 1)

theorem per_member_fqdns_nodup (zone : String) (exhibitor_list : List String) :
    ((per_member_records zone exhibitor_list).map Prod.fst).Nodup := by
  unfold per_member_records
  rw [List.map_map]
  have hc : (Prod.fst ∘ fun p : Nat × String => (zk_fqdn zone (p.1 + 1), [p.2]))
      = fun p : Nat × String => zk_fqdn zone (p.1 + 1) := rfl
  rw [hc]
  exact per_member_fqdns_nodup_aux zone (pySorted exhibitor_list) 0

/-! ### Behaviour of a whole run -/

theorem run_ok (args : Args) (zid : String) (zs : List String) (servers : List String)
    (pe : ApiCall → Option String) (store : List StoredRecord) (f : String)
    (hfq : target_fqdn_of args.rr args.zone = some f) :
    (run args (.ok (zid :: zs)) (.jsonServers servers) pe store).2
      = .ok ((processRecords pe zid args.ttl
          ((f, pySorted servers) :: per_member_records args.zone (pySorted servers)) store).1,
        (processRecords pe zid args.ttl
          ((f, pySorted servers) :: per_member_records args.zone (pySorted servers))
            store).2.flatMap (fun o => o.calls)) := by
  simp only [run, get_zk_servers, hfq]

theorem run_isOk_indep_pe (args : Args) (hostedZones : Except String (List String))
    (exhibitor : ExhibitorResponse) (store : List StoredRecord)
    (pe pe' : ApiCall → Option String) :
    (run args hostedZones exhibitor pe store).2.toOption.isSome
      = (run args hostedZones exhibitor pe' store).2.toOption.isSome := by
  cases hostedZones with
  | error e => rfl
  | ok hzs =>
    cases hzs with
    | nil => rfl
    | cons zid zs =>
      rcases htf : target_fqdn_of args.rr args.zone with _ | f
      · simp [run, htf]
      · rcases hex : get_zk_servers exhibitor with e | l
        · simp [run, htf, hex]
        · simp [run, htf, hex, Except.toOption]

instance {ε α : Type} [DecidableEq ε] [DecidableEq α] : DecidableEq (Except ε α) := fun a b =>
  match a, b with
  | .error e, .error f =>
    if h : e = f then isTrue (by rw [h]) else isFalse (fun hc => h (Except.error.inj hc))
  | .error _, .ok _ => isFalse (fun hc => Except.noConfusion hc)
  | .ok _, .error _ => isFalse (fun hc => Except.noConfusion hc)
  | .ok x, .ok y =>
    if h : x = y then isTrue (by rw [h]) else isFalse (fun hc => h (Except.ok.inj hc))

/-! ### The claims -/

/-- C1: Reconciler decision, for every record name: if the existing value
list is empty, the action is "create" and the Writer is called with the
desired values; if the existing list is non-empty and sorted(desired)
equals sorted(existing) as sequences — which, duplicates not being
deduplicated, holds exactly when the two lists are permutations of one
another — no Writer call is made; if the existing list is non-empty and
the sorted sequences differ, the action is "update" and the Writer is
called with the desired values. -/
theorem reconciler_decision (desired existing : List String) :
    (existing = [] → reconcile desired existing = (Action.create, [desired])) ∧
    (existing ≠ [] →
      (pySorted desired = pySorted existing ↔ List.Perm desired existing) ∧
      (List.Perm desired existing → reconcile desired existing = (Action.upToDate, [])) ∧
      (¬ List.Perm desired existing →
        reconcile desired existing = (Action.update, [desired]))) := by
  refine ⟨?_, ?_⟩
  · intro h; subst h; simp [reconcile]
  · intro hne
    refine ⟨pySorted_eq_iff_perm, ?_, ?_⟩
    · intro hperm
      unfold reconcile
      rw [if_pos hne, if_neg (not_not_intro (pySorted_eq_iff_perm.mpr hperm))]
    · intro hnp
      unfold reconcile
      rw [if_pos hne, if_pos (fun hc => hnp (pySorted_eq_iff_perm.mp hc))]

/-- Witness for C1 at the spec's three examples. -/
theorem reconciler_decision_witness :
    reconcile ["1.1.1.1"] [] = (Action.create, [["1.1.1.1"]]) ∧
    reconcile ["1.1.1.1"] ["1.1.1.1"] = (Action.upToDate, []) ∧
    reconcile ["1.1.1.1"] ["2.2.2.2"] = (Action.update, [["1.1.1.1"]]) :=
  ⟨(reconciler_decision ["1.1.1.1"] []).1 rfl,
   ((reconciler_decision ["1.1.1.1"] ["1.1.1.1"]).2 (by decide)).2.1 (List.Perm.refl _),
   ((reconciler_decision ["1.1.1.1"] ["2.2.2.2"]).2 (by decide)).2.2 (by decide)⟩

/-- C2: for every provider list response and target FQDN, the DNS Reader's
output is sorted ascending and is a permutation of exactly the values
collected from the record sets whose name equals the target FQDN exactly
(record sets with any other name being excluded); and when no record set
matches it returns the empty collection rather than an error. -/
theorem dns_reader_exact_match (res : ListResponse) (target_fqdn : String) :
    (fetch_existing_resource_records res target_fqdn).Sorted strLeP ∧
    List.Perm (fetch_existing_resource_records res target_fqdn)
      (((res.resourceRecordSets.filter (fun rs => rs.name == target_fqdn)).map
        (fun rs => rs.resourceRecords.filterMap (fun record => record.value))).flatten) ∧
    ((∀ rs ∈ res.resourceRecordSets, rs.name ≠ target_fqdn) →
      fetch_existing_resource_records res target_fqdn = []) := by
  refine ⟨pySorted_sorted _, ?_, ?_⟩
  · rw [show fetch_existing_resource_records res target_fqdn
        = pySorted (collectValues res.resourceRecordSets target_fqdn) from rfl]
    rw [collectValues_eq]
    exact pySorted_perm _
  · intro h
    unfold fetch_existing_resource_records
    rw [collectValues_eq]
    have hnil : res.resourceRecordSets.filter (fun rs => rs.name == target_fqdn) = [] := by
      rw [List.filter_eq_nil_iff]
      intro rs hrs
      simpa using h rs hrs
    rw [hnil]
    rfl

/-- Witness for C2: a record set named `zk10.example.com.` returned by the
range scan is excluded when querying `zk01.example.com.`, yielding the
empty collection. -/
theorem dns_reader_exact_match_witness :
    fetch_existing_resource_records
      ⟨[⟨"zk10.example.com.", [⟨some "1.1.1.1"⟩]⟩]⟩ "zk01.example.com." = [] :=
  (dns_reader_exact_match ⟨[⟨"zk10.example.com.", [⟨some "1.1.1.1"⟩]⟩]⟩
    "zk01.example.com.").2.2 (by decide)

/-- C3: for every ensemble endpoint response carrying a `servers` field the
Ensemble Reader returns the sorted `servers` list (ascending in the
lexicographic string order, hence a sorted permutation of the field); on
HTTP failure, a non-JSON body, or a missing `servers` field it propagates
an error uncaught, so the run aborts. -/
theorem ensemble_reader_sorted (r : ExhibitorResponse) :
    (∀ servers, r = ExhibitorResponse.jsonServers servers →
      ∃ out, get_zk_servers r = .ok out ∧ out.Sorted strLeP ∧ List.Perm out servers) ∧
    (r = ExhibitorResponse.httpFailure ∨ r = ExhibitorResponse.nonJson ∨
        r = ExhibitorResponse.jsonNoServers →
      ∃ e, get_zk_servers r = .error e) := by
  constructor
  · intro servers hr
    subst hr
    exact ⟨pySorted servers, rfl, pySorted_sorted servers, pySorted_perm servers⟩
  · intro hr
    rcases hr with h | h | h <;> subst h
    · exact ⟨_, rfl⟩
    · exact ⟨_, rfl⟩
    · exact ⟨_, rfl⟩

/-- Witness for C3 at a concrete unsorted response and at an HTTP failure. -/
theorem ensemble_reader_sorted_witness :
    (∃ out, get_zk_servers (ExhibitorResponse.jsonServers ["10.0.0.2", "10.0.0.1"]) = .ok out ∧
      out.Sorted strLeP ∧ List.Perm out ["10.0.0.2", "10.0.0.1"]) ∧
    ∃ e, get_zk_servers ExhibitorResponse.httpFailure = .error e :=
  ⟨(ensemble_reader_sorted _).1 ["10.0.0.2", "10.0.0.1"] rfl,
   (ensemble_reader_sorted _).2 (Or.inl rfl)⟩

/-- C4: the per-member records follow ascending sorted-address order: the
member of 1-based rank `i + 1` in the sorted member list gets the FQDN
`"zk"` followed by the rank zero-padded to (a minimum of) two digits, a
dot, the zone name and a trailing dot, with the singleton desired value
list containing that member's address; and there is exactly one such
record per member. -/
theorem per_member_record_naming (zone : String) (members : List String) :
    (per_member_records zone members).length = members.length ∧
    ∀ i ip, (pySorted members)[i]? = some ip →
      (per_member_records zone members)[i]?
        = some ("zk" ++ format02 (i + 1) ++ "." ++ zone ++ ".", [ip]) := by
  constructor
  · unfold per_member_records
    rw [List.length_map, List.enum_length, pySorted_length]
  · intro i ip hip
    unfold per_member_records
    rw [List.getElem?_map, List.getElem?_enum, hip]
    rfl

/-- Witness for C4 at the spec's example: members
`["10.0.0.2", "10.0.0.1"]` yield `zk01.<zone>.` for `10.0.0.1` and
`zk02.<zone>.` for `10.0.0.2`. -/
theorem per_member_record_naming_witness :
    (per_member_records "prod.example.com" ["10.0.0.2", "10.0.0.1"]).length = 2 ∧
    (per_member_records "prod.example.com" ["10.0.0.2", "10.0.0.1"])[0]?
      = some ("zk01.prod.example.com.", ["10.0.0.1"]) ∧
    (per_member_records "prod.example.com" ["10.0.0.2", "10.0.0.1"])[1]?
      = some ("zk02.prod.example.com.", ["10.0.0.2"]) := by
  refine ⟨(per_member_record_naming "prod.example.com" ["10.0.0.2", "10.0.0.1"]).1, ?_, ?_⟩
  · exact ((per_member_record_naming "prod.example.com" ["10.0.0.2", "10.0.0.1"]).2 0
      "10.0.0.1" (by decide)).trans (by decide)
  · exact ((per_member_record_naming "prod.example.com" ["10.0.0.2", "10.0.0.1"]).2 1
      "10.0.0.2" (by decide)).trans (by decide)

/-- C5 counterexample: for the empty record name (the required `--rr`
argument given as the empty string) the code raises `IndexError` at
`args.rr[-1]` — modelled as `none` — instead of producing the
concatenation `"" + "." + zone + "."` that the claim prescribes for every
name not ending in a trailing dot. -/
theorem aggregate_fqdn_empty_rr_cex :
    target_fqdn_of "" "prod.example.com" = none ∧
    target_fqdn_of "" "prod.example.com" ≠ some ("" ++ "." ++ "prod.example.com" ++ ".") := by
  constructor
  · rfl
  · decide

/-- C5 amended: for every NON-EMPTY record name argument rr and zone name,
the aggregate-record FQDN equals rr verbatim when rr ends in a trailing
dot, and otherwise equals rr concatenated with ".", the zone name, and a
trailing dot; for the empty rr the computation raises instead (see the
counterexample). -/
theorem aggregate_fqdn_nonempty (rr zone : String) (h : rr ≠ "") :
    (rr.data.getLast? = some '.' → target_fqdn_of rr zone = some rr) ∧
    (rr.data.getLast? ≠ some '.' →
      target_fqdn_of rr zone = some (rr ++ "." ++ zone ++ ".")) := by
  have hne : rr.data ≠ [] := fun hd => h (String.ext hd)
  constructor
  · intro hdot
    simp [target_fqdn_of, hdot]
  · intro hnodot
    rcases hlast : rr.data.getLast? with _ | c
    · exact absurd (List.getLast?_eq_none_iff.mp hlast) hne
    · have hc : c ≠ '.' := fun hcc => hnodot (hcc ▸ hlast)
      simp [target_fqdn_of, hlast, hc]

/-- Witness for C5 amended at the spec's two examples. -/
theorem aggregate_fqdn_nonempty_witness :
    target_fqdn_of "zk" "prod.example.com" = some "zk.prod.example.com." ∧
    target_fqdn_of "custom.example.com." "zone" = some "custom.example.com." :=
  ⟨((aggregate_fqdn_nonempty "zk" "prod.example.com" (by decide)).2 (by decide)).trans
      (by decide),
   (aggregate_fqdn_nonempty "custom.example.com." "zone" (by decide)).1 (by decide)⟩

/-- C6: a Writer call with an empty value collection makes no provider API
call; a call with a non-empty collection submits exactly one change batch
consisting of one UPSERT change carrying the wrapped value list and the
given TTL. -/
theorem writer_empty_noop_one_upsert (pe : ApiCall → Option String)
    (store : List StoredRecord) (hosted_zone_id target_fqdn : String) (ttl : Int) :
    upsert_record pe store hosted_zone_id target_fqdn [] ttl = (store, [], none) ∧
    ∀ ip_list, ip_list ≠ [] →
      (upsert_record pe store hosted_zone_id target_fqdn ip_list ttl).2.1
        = [⟨hosted_zone_id, ⟨[⟨"UPSERT", ⟨target_fqdn, "A", ttl,
            ip_list.map (fun value => ResourceRecord.mk value)⟩⟩]⟩⟩] := by
  constructor
  · exact upsert_record_nil pe store hosted_zone_id target_fqdn ttl
  · intro l hl
    rw [upsert_record_calls, if_neg hl]
    rfl

/-- Witness for C6 at an empty and a singleton value list. -/
theorem writer_empty_noop_one_upsert_witness :
    upsert_record (fun _ => none) [] "Z1" "zk.example.com." [] 300 = ([], [], none) ∧
    (upsert_record (fun _ => none) [] "Z1" "zk.example.com." ["1.1.1.1"] 300).2.1
      = [⟨"Z1", ⟨[⟨"UPSERT", ⟨"zk.example.com.", "A", 300, [⟨"1.1.1.1"⟩]⟩⟩]⟩⟩] := by
  refine ⟨(writer_empty_noop_one_upsert (fun _ => none) [] "Z1" "zk.example.com." 300).1, ?_⟩
  exact ((writer_empty_noop_one_upsert (fun _ => none) [] "Z1" "zk.example.com." 300).2
    ["1.1.1.1"] (by decide)).trans (by decide)

/-- C7: a provider error during a per-record upsert is caught and logged by
the Writer, which returns normally with the store unchanged; the
processing sequence still attempts every record (one outcome per record,
in order, whatever the provider's error behaviour), and the run's
success/failure status does not depend on the provider's per-record
behaviour at all. -/
theorem upsert_error_caught_run_continues (pe : ApiCall → Option String) :
    (∀ store hosted_zone_id target_fqdn ip_list ttl e, ip_list ≠ [] →
      pe (upsertApiCall hosted_zone_id target_fqdn ip_list ttl) = some e →
      upsert_record pe store hosted_zone_id target_fqdn ip_list ttl
        = (store, [upsertApiCall hosted_zone_id target_fqdn ip_list ttl], some e)) ∧
    (∀ hosted_zone_id ttl records store,
      ((processRecords pe hosted_zone_id ttl records store).2.map (fun o => o.fqdn))
        = records.map Prod.fst) ∧
    (∀ args hostedZones exhibitor store,
      (run args hostedZones exhibitor pe store).2.toOption.isSome
        = (run args hostedZones exhibitor (fun _ => none) store).2.toOption.isSome) := by
  refine ⟨?_, ?_, ?_⟩
  · intro store zid g l ttl e hl hpe
    rw [upsert_record_ne_nil pe store zid g l ttl hl, hpe]
  · intro zid ttl records store
    exact processRecords_fqdns pe zid ttl records store
  · intro args hz ex store
    exact run_isOk_indep_pe args hz ex store pe _

/-- Witness for C7 with a provider that always raises: the error is logged
and swallowed, and both records of a two-record sequence are still
attempted. -/
theorem upsert_error_caught_run_continues_witness :
    upsert_record (fun _ => some "AccessDenied") [] "Z1" "zk01.example.com." ["1.1.1.1"] 300
      = ([], [upsertApiCall "Z1" "zk01.example.com." ["1.1.1.1"] 300], some "AccessDenied") ∧
    ((processRecords (fun _ => some "AccessDenied") "Z1" 300
        [("zk01.z.", ["a"]), ("zk02.z.", ["b"])] []).2.map (fun o => o.fqdn))
      = ["zk01.z.", "zk02.z."] := by
  constructor
  · exact (upsert_error_caught_run_continues (fun _ => some "AccessDenied")).1 [] "Z1"
      "zk01.example.com." ["1.1.1.1"] 300 "AccessDenied" (by decide) rfl
  · exact ((upsert_error_caught_run_continues (fun _ => some "AccessDenied")).2.1 "Z1" 300
      [("zk01.z.", ["a"]), ("zk02.z.", ["b"])] []).trans (by decide)

/-- C8 counterexample: the claim fails as stated.  With `--rr zk01` and
zone `z` the aggregate FQDN `zk01.z.` collides with the first per-member
FQDN; with members `["a", "b"]`, a provider on which every upsert takes
effect, and an empty initial store, the first run issues three upserts and
a second run with unchanged membership still issues two upserts, not
zero. -/
theorem idempotence_name_collision_cex :
    (let args : Args := ⟨"z", "zk01", "u", 300⟩
     let r1 := run args (.ok ["Z1"]) (.jsonServers ["a", "b"]) (fun _ => none) []
     let store1 := (r1.2.toOption.map Prod.fst).getD []
     let r2 := run args (.ok ["Z1"]) (.jsonServers ["a", "b"]) (fun _ => none) store1
     r1.2.toOption.map (fun p => p.2.length) = some 3 ∧
       r2.2.toOption.map (fun p => p.2.length) = some 2) := by
  decide

/-- C8 amended: provided the aggregate FQDN differs from every per-member
FQDN `zkNN.<zone>.`, re-running is idempotent: when every upsert takes
effect (a subsequent read returns the upserted sorted value list), a
second run with unchanged membership performs zero upsert calls and
leaves the store as the first run left it; and one reconcile+upsert block
issues at most one upsert — exactly one when the desired list is
non-empty and its sorted form differs from the existing read — with a
repetition of the same block on the resulting store issuing none. -/
theorem second_run_no_writes (args : Args) (zid : String) (zs : List String)
    (servers : List String) (store : List StoredRecord) (f : String)
    (hfq : target_fqdn_of args.rr args.zone = some f)
    (hnc : f ∉ (per_member_records args.zone (pySorted servers)).map Prod.fst) :
    (∀ store1 calls1,
      (run args (.ok (zid :: zs)) (.jsonServers servers) (fun _ => none) store).2
        = .ok (store1, calls1) →
      (run args (.ok (zid :: zs)) (.jsonServers servers) (fun _ => none) store1).2
        = .ok (store1, [])) ∧
    (∀ s g d t, d ≠ [] → pySorted d ≠ fetchStore s g →
      (reconcile_upsert (fun _ => none) s zid g d t).2.2.1.length = 1 ∧
      (reconcile_upsert (fun _ => none)
          (reconcile_upsert (fun _ => none) s zid g d t).1 zid g d t).2.2.1 = []) ∧
    (∀ s g d t, (reconcile_upsert (fun _ => none) s zid g d t).2.2.1.length ≤ 1) := by
  have hpairs : (((f, pySorted servers) ::
      per_member_records args.zone (pySorted servers)).map Prod.fst).Nodup := by
    simp only [List.map_cons, List.nodup_cons]
    exact ⟨hnc, per_member_fqdns_nodup args.zone (pySorted servers)⟩
  refine ⟨?_, ?_, ?_⟩
  · intro store1 calls1 hrun
    rw [run_ok args zid zs servers _ store f hfq] at hrun
    have hstore1 : store1 = (processRecords (fun _ => none) zid args.ttl
        ((f, pySorted servers) :: per_member_records args.zone (pySorted servers)) store).1 := by
      injection hrun with h1
      exact (congrArg Prod.fst h1).symm
    rw [run_ok args zid zs servers _ store1 f hfq]
    obtain ⟨hs, hcalls⟩ := processRecords_no_calls (fun _ => none) zid args.ttl
      ((f, pySorted servers) :: per_member_records args.zone (pySorted servers)) store1
      (fun gd hmem hne => by
        rw [hstore1]
        exact processRecords_post zid args.ttl _ store hpairs gd hmem hne)
    rw [hs, flatMap_calls_nil hcalls]
  · intro s g d t hd hdiff
    constructor
    · rw [reconcile_upsert_calls, if_pos ⟨hd, Or.inr hdiff⟩]
      rfl
    · obtain ⟨act, hact⟩ := reconcile_upsert_no_call (fun _ => none)
        (reconcile_upsert (fun _ => none) s zid g d t).1 zid g d t
        (fun hne => reconcile_upsert_post_ok s zid g d t hne)
      rw [hact]
  · intro s g d t
    rw [reconcile_upsert_calls]
    by_cases hc : d ≠ [] ∧ (fetchStore s g = [] ∨ pySorted d ≠ fetchStore s g)
    · rw [if_pos hc]
      exact Nat.le_refl 1
    · rw [if_neg hc]
      exact Nat.zero_le 1

/-- Witness for C8 amended: with `--rr zk` (no name collision) and one
member, a first run from the empty store issues two upserts, and a second
run on the resulting store issues none. -/
theorem second_run_no_writes_witness :
    (run ⟨"z", "zk", "u", 300⟩ (.ok ["Z1"]) (.jsonServers ["a"]) (fun _ => none)
        [⟨"zk.z.", ["a"], 300⟩, ⟨"zk01.z.", ["a"], 300⟩]).2
      = .ok ([⟨"zk.z.", ["a"], 300⟩, ⟨"zk01.z.", ["a"], 300⟩], []) :=
  (second_run_no_writes ⟨"z", "zk", "u", 300⟩ "Z1" [] ["a"] [] "zk.z."
      (by decide) (by decide)).1
    [⟨"zk.z.", ["a"], 300⟩, ⟨"zk01.z.", ["a"], 300⟩]
    [upsertApiCall "Z1" "zk.z." ["a"] 300, upsertApiCall "Z1" "zk01.z." ["a"] 300]
    (by decide)

/-- C9: if the required `--rr` argument is the empty string, the run aborts
with the uncaught IndexError from `args.rr[-1]` right after the zone
lookup: the completed event trace is exactly the zone lookup, so no
ensemble fetch and no record read or upsert ever completes; and the FQDN
computation succeeds exactly on the non-empty record names. -/
theorem empty_rr_aborts (zone zid url : String) (zs : List String) (ttl : Int)
    (exhibitor : ExhibitorResponse) (pe : ApiCall → Option String)
    (store : List StoredRecord) :
    run ⟨zone, "", url, ttl⟩ (.ok (zid :: zs)) exhibitor pe store
      = ([Event.zoneLookup zone], .error "IndexError: string index out of range") ∧
    ∀ rr : String, (target_fqdn_of rr zone).isSome ↔ rr ≠ "" := by
  constructor
  · rfl
  · intro rr
    constructor
    · intro hsome hrr
      subst hrr
      simp [target_fqdn_of] at hsome
    · intro hrr
      have hne : rr.data ≠ [] := fun hd => hrr (String.ext hd)
      rcases hlast : rr.data.getLast? with _ | c
      · exact absurd (List.getLast?_eq_none_iff.mp hlast) hne
      · by_cases hc : c = '.' <;> simp [target_fqdn_of, hlast, hc]

/-- Witness for C9: a concrete aborted run, and a non-empty name on which
the FQDN computation succeeds. -/
theorem empty_rr_aborts_witness :
    run ⟨"prod.example.com", "", "u", 300⟩ (.ok ["Z1"])
        (ExhibitorResponse.jsonServers ["10.0.0.1"]) (fun _ => none) []
      = ([Event.zoneLookup "prod.example.com"], .error "IndexError: string index out of range")
      ∧ (target_fqdn_of "zk" "prod.example.com").isSome :=
  ⟨(empty_rr_aborts "prod.example.com" "Z1" "u" [] 300
      (ExhibitorResponse.jsonServers ["10.0.0.1"]) (fun _ => none) []).1,
   ((empty_rr_aborts "prod.example.com" "Z1" "u" [] 300
      (ExhibitorResponse.jsonServers ["10.0.0.1"]) (fun _ => none) []).2 "zk").mpr
     (by decide)⟩

/-- C10: the program never deletes or empties a record.  When the desired
value list is empty while a non-empty record exists, the Reconciler takes
the update branch but the Writer's empty-list guard suppresses the
provider call, so the store — and with it the record's values and TTL —
is unchanged; and across a whole successful run, no record that read
non-empty before reads empty after. -/
theorem empty_desired_never_deletes (pe : ApiCall → Option String)
    (store : List StoredRecord) (hosted_zone_id target_fqdn : String) (ttl : Int) :
    (fetchStore store target_fqdn ≠ [] →
      reconcile_upsert pe store hosted_zone_id target_fqdn [] ttl
        = (store, Action.update, [], none)) ∧
    (∀ args hostedZones exhibitor store1 calls g,
      (run args hostedZones exhibitor pe store).2 = .ok (store1, calls) →
      fetchStore store g ≠ [] → fetchStore store1 g ≠ []) := by
  constructor
  · intro h1
    rw [reconcile_upsert_empty_desired, if_pos h1]
  · intro args hz ex store1 calls g hrun hg
    cases hz with
    | error e => simp [run] at hrun
    | ok hzs =>
      cases hzs with
      | nil => simp [run] at hrun
      | cons zid zs =>
        rcases htf : target_fqdn_of args.rr args.zone with _ | f
        · simp [run, htf] at hrun
        · rcases hex : get_zk_servers ex with e | l
          · simp [run, htf, hex] at hrun
          · simp only [run, htf, hex] at hrun
            rw [Except.ok.injEq, Prod.mk.injEq] at hrun
            rw [← hrun.1]
            exact processRecords_preserves_nonempty pe zid args.ttl
              ((f, l) :: per_member_records args.zone l) store g hg

/-- Witness for C10: an existing aggregate record survives a run with an
empty ensemble, and the single empty-desired reconcile leaves the store
untouched while logging an update decision. -/
theorem empty_desired_never_deletes_witness :
    reconcile_upsert (fun _ => none) [⟨"zk.z.", ["1.1.1.1"], 300⟩] "Z1" "zk.z." [] 300
      = ([⟨"zk.z.", ["1.1.1.1"], 300⟩], Action.update, [], none) ∧
    fetchStore [⟨"zk.z.", ["1.1.1.1"], 300⟩] "zk.z." ≠ [] := by
  constructor
  · exact (empty_desired_never_deletes (fun _ => none) [⟨"zk.z.", ["1.1.1.1"], 300⟩]
      "Z1" "zk.z." 300).1 (by decide)
  · exact (empty_desired_never_deletes (fun _ => none) [⟨"zk.z.", ["1.1.1.1"], 300⟩]
      "Z1" "zk.z." 300).2 ⟨"z", "zk", "u", 300⟩ (.ok ["Z1"])
      (ExhibitorResponse.jsonServers []) [⟨"zk.z.", ["1.1.1.1"], 300⟩] [] "zk.z."
      (by decide) (by decide)
end Exhibitor2Dns
